import Mathlib

/-!
Verification development for the legal-document-management application.

The file embeds, as executable Lean definitions, the parts of the code that
the specification's testable properties speak about:

* the heuristic extraction pipeline `generateExtractionsFromPdf`
  (lib/storage.ts), including its keyword/heading/date/money paragraph
  classifiers, its per-page scan, and its random backfill loop;
* the deterministic fallback generator `generateMockExtractions`;
* the upload coordinator `uploadDocument` (hooks/use-documents.ts);
* the `DELETE /api/documents/[id]` route and the
  `POST /api/documents/[id]/extractions` route with `validateExtraction`;
* the slot/document resolution logic shared by `getDocumentFileUrl`,
  `getExtractions` and `deleteDocument` in hooks/use-documents.ts.

Modelling conventions: JavaScript strings are Lean `String`s (lists of
characters); `Math.random()` is an injected stream `ℕ → ℚ` of values in
`[0, 1)`; `Math.floor(Math.random() * k)` becomes `jsRandInt`; loops whose
guard is not structurally decreasing take an explicit fuel argument, with
`none` meaning that the loop has not finished within that much fuel; a
thrown exception that propagates is an explicit `thrown`/`failed` result;
Prisma's interactive transaction commits all of its writes if the callback
finishes and none of them if it throws.
-/

/-- Character class of the JavaScript regex `\s` restricted to ASCII
whitespace (space, tab, newline, carriage return, vertical tab, form feed). -/
def isWsChar (c : Char) : Bool :=
  c == ' ' || c == '\t' || c == '\n' || c == '\r' || c == '\x0b' || c == '\x0c'

/-- Character class of the JavaScript regex `\w`: letters, digits, underscore. -/
def isWordChar (c : Char) : Bool :=
  c.isAlpha || c.isDigit || c == '_'

/-- Whether `needle` occurs at the very start of `hay` (character lists). -/
def isPrefixChars : List Char → List Char → Bool
  | [], _ => true
  | _ :: _, [] => false
  | a :: as, b :: bs => a == b && isPrefixChars as bs

/-- JavaScript `hay.includes(needle)` on character lists: `needle` occurs
as a contiguous substring of `hay`. -/
def containsSub (needle : List Char) : List Char → Bool
  | [] => needle.isEmpty
  | c :: rest => isPrefixChars needle (c :: rest) || containsSub needle rest

/-- JavaScript `toLowerCase` on a character list (ASCII case mapping). -/
def lowerChars (l : List Char) : List Char := l.map Char.toLower

/-- JavaScript `trim` on a character list: strip leading and trailing
whitespace. -/
def trimChars (l : List Char) : List Char :=
  ((l.dropWhile isWsChar).reverse.dropWhile isWsChar).reverse

/-- JavaScript `s.trim()` on strings. -/
def strTrim (s : String) : String := String.mk (trimChars s.data)

/-- JavaScript `s.split(" ")`: split on every single space character,
keeping empty pieces. `acc` is the reversed current piece. -/
def splitSpace (acc : List Char) : List Char → List (List Char)
  | [] => [acc.reverse]
  | c :: rest =>
    if c == ' ' then acc.reverse :: splitSpace [] rest
    else splitSpace (c :: acc) rest

/-- JavaScript `words.join(" ")`. -/
def joinSpace : List String → String
  | [] => ""
  | [w] => w
  | w :: ws => w ++ " " ++ joinSpace ws

/-- JavaScript `s.startsWith(pre)`. -/
def startsWithStr (s pre : String) : Bool := isPrefixChars pre.data s.data

/-- Number of newline characters in a list. -/
def nlCount (l : List Char) : ℕ := (l.filter (fun c => c == '\n')).length

/-- Splitting on the regex `/\n\s*\n/` as `pageText.split(/\n\s*\n/)` does.
A separator is a maximal run of whitespace restricted to the span from its
first newline to its last newline, provided the run holds at least two
newlines (the regex match is `\n`, then greedy `\s*` backtracked so as to
end on the run's last `\n`); whitespace before the first newline stays with
the preceding paragraph and whitespace after the last newline starts the
next one. `acc` is the reversed current paragraph, `run` the reversed
current whitespace run. -/
def blankSplitCore (acc run : List Char) : List Char → List (List Char)
  | [] =>
    if 2 ≤ nlCount run then
      let runF := run.reverse
      let before := runF.takeWhile (fun c => !(c == '\n'))
      let after := run.takeWhile (fun c => !(c == '\n'))
      [acc.reverse ++ before, after.reverse]
    else [(run ++ acc).reverse]
  | c :: rest =>
    if isWsChar c then blankSplitCore acc (c :: run) rest
    else
      if 2 ≤ nlCount run then
        let runF := run.reverse
        let before := runF.takeWhile (fun c => !(c == '\n'))
        let after := run.takeWhile (fun c => !(c == '\n'))
        (acc.reverse ++ before) :: blankSplitCore (c :: after) [] rest
      else blankSplitCore (c :: (run ++ acc)) [] rest

/-- The paragraphs of a page text, as in
`pageText.split(/\n\s*\n/).filter((p) => p.trim().length > 0)`. -/
def paragraphsOf (pageText : String) : List (List Char) :=
  (blankSplitCore [] [] pageText.data).filter (fun p => 0 < (trimChars p).length)

/-- The fixed vocabulary `legalKeywords` of the extraction pipeline. -/
def legalKeywords : List String :=
  ["agreement", "contract", "party", "parties", "clause", "section",
   "article", "term", "provision", "obligation", "liability", "warranty",
   "indemnity", "confidential", "termination", "governing law",
   "jurisdiction", "dispute", "resolution", "arbitration", "effective date",
   "execution date", "payment", "fee", "compensation",
   "intellectual property", "copyright", "trademark", "patent", "license",
   "compliance", "regulation", "law", "statute", "amendment", "modification",
   "assignment", "successor", "notice", "waiver", "severability",
   "force majeure", "entire agreement"]

/-- `legalKeywords.some((keyword) =>
paragraph.toLowerCase().includes(keyword.toLowerCase()))`. -/
def containsKeyword (p : List Char) : Bool :=
  legalKeywords.any (fun keyword => containsSub (lowerChars keyword.data) (lowerChars p))

/-- First alternative of `headingRegex`: `^[A-Z\s]{5,}$`. -/
def headingAlt1 (p : List Char) : Bool :=
  5 ≤ p.length && p.all (fun c => c.isUpper || isWsChar c)

/-- Roman-numeral characters used by `headingRegex`. -/
def romanChar (c : Char) : Bool := c == 'I' || c == 'V' || c == 'X'

/-- Second alternative of `headingRegex`: `^[IVX]+\.\s`. -/
def headingAlt2 (p : List Char) : Bool :=
  let r := p.takeWhile romanChar
  0 < r.length &&
    (match p.drop r.length with
     | c :: d :: _ => c == '.' && isWsChar d
     | _ => false)

/-- Third alternative of `headingRegex`: `^[0-9]+\.\s`. -/
def headingAlt3 (p : List Char) : Bool :=
  let r := p.takeWhile Char.isDigit
  0 < r.length &&
    (match p.drop r.length with
     | c :: d :: _ => c == '.' && isWsChar d
     | _ => false)

/-- Fourth alternative of `headingRegex`: `^[A-Z][a-z]+\s[0-9]+:`. -/
def headingAlt4 (p : List Char) : Bool :=
  match p with
  | [] => false
  | c :: rest =>
    c.isUpper &&
      (let lows := rest.takeWhile Char.isLower
       0 < lows.length &&
         (match rest.drop lows.length with
          | [] => false
          | s :: rest2 =>
            isWsChar s &&
              (let ds := rest2.takeWhile Char.isDigit
               0 < ds.length &&
                 (match rest2.drop ds.length with
                  | t :: _ => t == ':'
                  | [] => false))))

/-- `headingRegex.test(paragraph)` for
`/^[A-Z\s]{5,}$|^[IVX]+\.\s|^[0-9]+\.\s|^[A-Z][a-z]+\s[0-9]+:/`:
all four alternatives are anchored at the start. -/
def isHeading (p : List Char) : Bool :=
  headingAlt1 p || headingAlt2 p || headingAlt3 p || headingAlt4 p

/-- Month names of the long-form date alternative of `dateRegex`. -/
def monthNames : List String :=
  ["January", "February", "March", "April", "May", "June", "July",
   "August", "September", "October", "November", "December"]

/-- Long-form alternative of `dateRegex` matched at the start of `l`:
`(Month)\s+\d{1,2},\s+\d{4}\b`. -/
def dateLongAt (l : List Char) : Bool :=
  monthNames.any (fun m =>
    isPrefixChars m.data l &&
      (let rest := l.drop m.data.length
       let sp := rest.takeWhile isWsChar
       0 < sp.length &&
         (let rest2 := rest.drop sp.length
          let ds := rest2.takeWhile Char.isDigit
          (ds.length == 1 || ds.length == 2) &&
            (match rest2.drop ds.length with
             | [] => false
             | c :: rest3 =>
               c == ',' &&
                 (let sp2 := rest3.takeWhile isWsChar
                  0 < sp2.length &&
                    (let rest4 := rest3.drop sp2.length
                     let ys := rest4.takeWhile Char.isDigit
                     ys.length == 4 &&
                       (match rest4.drop ys.length with
                        | [] => true
                        | d :: _ => !(isWordChar d))))))))

/-- Slash-delimited alternative of `dateRegex` matched at the start of `l`:
`\b\d{1,2}\/\d{1,2}\/\d{2,4}\b`. -/
def dateSlashAt (l : List Char) : Bool :=
  let d1 := l.takeWhile Char.isDigit
  (d1.length == 1 || d1.length == 2) &&
    (match l.drop d1.length with
     | [] => false
     | c :: rest =>
       c == '/' &&
         (let d2 := rest.takeWhile Char.isDigit
          (d2.length == 1 || d2.length == 2) &&
            (match rest.drop d2.length with
             | [] => false
             | c2 :: rest2 =>
               c2 == '/' &&
                 (let d3 := rest2.takeWhile Char.isDigit
                  (d3.length == 2 || d3.length == 3 || d3.length == 4) &&
                    (match rest2.drop d3.length with
                     | [] => true
                     | t :: _ => !(isWordChar t))))))

/-- ISO alternative of `dateRegex` matched at the start of `l`:
`\b\d{4}-\d{2}-\d{2}\b`. -/
def dateIsoAt (l : List Char) : Bool :=
  let d1 := l.takeWhile Char.isDigit
  d1.length == 4 &&
    (match l.drop d1.length with
     | [] => false
     | c :: rest =>
       c == '-' &&
         (let d2 := rest.takeWhile Char.isDigit
          d2.length == 2 &&
            (match rest.drop d2.length with
             | [] => false
             | c2 :: rest2 =>
               c2 == '-' &&
                 (let d3 := rest2.takeWhile Char.isDigit
                  d3.length == 2 &&
                    (match rest2.drop d3.length with
                     | [] => true
                     | t :: _ => !(isWordChar t))))))

/-- One date alternative matching at this position, with the leading `\b`
boundary relative to the previous character. -/
def dateAtBoundary (prev : Option Char) (l : List Char) : Bool :=
  (match prev with
   | none => true
   | some c => !(isWordChar c)) &&
  (dateLongAt l || dateSlashAt l || dateIsoAt l)

/-- Unanchored search for `dateRegex` over all positions of the paragraph. -/
def containsDateAux : Option Char → List Char → Bool
  | _, [] => false
  | prev, c :: rest => dateAtBoundary prev (c :: rest) || containsDateAux (some c) rest

/-- `dateRegex.test(paragraph)`. -/
def containsDate (p : List Char) : Bool := containsDateAux none p

/-- Currency-symbol alternative of `moneyRegex` matched at the start of `l`:
`\$\s*\d+(?:,\d{3})*(?:\.\d{2})?` (the two trailing groups are optional, so
a dollar sign followed by optional whitespace and a digit is a match). -/
def moneyDollarAt (l : List Char) : Bool :=
  match l with
  | [] => false
  | c :: rest =>
    c == '$' &&
      (let sp := rest.takeWhile isWsChar
       match rest.drop sp.length with
       | d :: _ => d.isDigit
       | [] => false)

/-- Greedy consumption of the `(?:,\d{3})*` group of `moneyRegex`, with an
iteration bound that the wrapper instantiates with the list length (each
group consumes four characters, so the bound is never the reason to stop). -/
def consumeCommaGroupsF : ℕ → List Char → List Char
  | 0, l => l
  | fuel + 1, l =>
    match l with
    | [] => []
    | c :: rest =>
      if c == ',' then
        let ds := rest.takeWhile Char.isDigit
        if 3 ≤ ds.length then consumeCommaGroupsF fuel (rest.drop 3)
        else c :: rest
      else c :: rest

/-- Greedy consumption of the `(?:,\d{3})*` group of `moneyRegex`. -/
def consumeCommaGroups (l : List Char) : List Char :=
  consumeCommaGroupsF l.length l

/-- Suffix alternative of `moneyRegex` matched at the start of `l`:
`\d+(?:,\d{3})*(?:\.\d{2})?\s*(?:dollars|USD)` with the `i` flag. -/
def moneySuffixAt (l : List Char) : Bool :=
  let ds := l.takeWhile Char.isDigit
  0 < ds.length &&
    (let r1 := consumeCommaGroups (l.drop ds.length)
     let r2 :=
       match r1 with
       | c :: rest =>
         if c == '.' then
           let f := rest.takeWhile Char.isDigit
           if 2 ≤ f.length then rest.drop 2 else r1
         else r1
       | [] => r1
     let r3 := r2.drop (r2.takeWhile isWsChar).length
     isPrefixChars "dollars".data (lowerChars r3) ||
       isPrefixChars "usd".data (lowerChars r3))

/-- Unanchored search for `moneyRegex` over all positions of the paragraph. -/
def containsMoneyAux : List Char → Bool
  | [] => false
  | c :: rest => moneyDollarAt (c :: rest) || moneySuffixAt (c :: rest) || containsMoneyAux rest

/-- `moneyRegex.test(paragraph)`. -/
def containsMoney (p : List Char) : Bool := containsMoneyAux p

/-- A paragraph is kept by the heuristic scan iff
`containsKeyword || isHeading || containsDate || containsMoney`. -/
def isImportantParagraph (p : List Char) : Bool :=
  containsKeyword p || isHeading p || containsDate p || containsMoney p

/-- The `Extraction` record of lib/types.ts (and the shape pushed by the
pipeline): id, text, page number and owning document id. Page numbers are
JavaScript numbers that the pipeline only ever builds from
`Math.floor(...) + 1`, so they are modelled as naturals. -/
structure Extraction where
  id : String
  text : String
  pageNumber : Nat
  documentId : String
deriving DecidableEq, Repr

/-- `Math.floor(r * k)` for a `Math.random()` value `r` and a natural
scale `k`, as used for every random integer in the code. With `r` given as
the fraction `r.num / r.den` (denominator positive), the floor of `r * k`
is the Euclidean quotient of `r.num * k` by `r.den`. -/
def jsRandInt (r : ℚ) (k : ℕ) : ℕ := ((r.num * (k : ℤ)) / (r.den : ℤ)).toNat

/-- The display truncation of the scan:
`paragraph.length > 150 ? paragraph.substring(0, 150) + "..." : paragraph`. -/
def truncChars (p : List Char) : List Char :=
  if 150 < p.length then p.take 150 ++ "...".data else p

/-- An extraction pushed by the pipeline: the id interpolates the owning
document id and the current length of the extraction array. -/
def mkExtraction (documentId : String) (k : ℕ) (text : String) (pageNumber : ℕ) : Extraction :=
  { id := "extraction-" ++ documentId ++ "-" ++ toString k
    text := text
    pageNumber := pageNumber
    documentId := documentId }

/-- JavaScript `Set.add`: append if not already present (insertion order kept). -/
def insertSet (l : List ℕ) (n : ℕ) : List ℕ :=
  if l.contains n then l else l ++ [n]

/-- The mutable state of the heuristic scan: the `extractions` array and the
`processedPages` set. -/
structure ScanSt where
  extractions : List Extraction
  processedPages : List ℕ
deriving DecidableEq, Repr

/-- `extractions.filter((e) => e.pageNumber === pageNum).length`. -/
def countPage (l : List Extraction) (pageNum : ℕ) : ℕ :=
  (l.filter (fun e => e.pageNumber == pageNum)).length

/-- The inner `for (const paragraph of paragraphs)` loop of the scan:
paragraphs shorter than 20 characters are skipped, important paragraphs are
pushed (truncated) and the page is marked processed, and the loop breaks
once the page holds two extractions. -/
def scanParagraphs (documentId : String) (pageNum : ℕ) : ScanSt → List (List Char) → ScanSt
  | st, [] => st
  | st, p :: rest =>
    if p.length < 20 then scanParagraphs documentId pageNum st rest
    else if isImportantParagraph p then
      let st' : ScanSt :=
        { extractions :=
            st.extractions ++
              [mkExtraction documentId st.extractions.length (String.mk (truncChars p)) pageNum]
          processedPages := insertSet st.processedPages pageNum }
      if 2 ≤ countPage st'.extractions pageNum then st'
      else scanParagraphs documentId pageNum st' rest
    else scanParagraphs documentId pageNum st rest

/-- One iteration of the outer page loop: a page whose text cannot be
retrieved (`doc pageNum = none`, the per-page catch) is skipped, as is a
page with empty text (`if (!pageText) continue`). -/
def scanOnePage (documentId : String) (doc : ℕ → Option String) (st : ScanSt) (pageNum : ℕ) :
    ScanSt :=
  match doc pageNum with
  | none => st
  | some pageText =>
    if pageText == "" then st
    else scanParagraphs documentId pageNum st (paragraphsOf pageText)

/-- The page loop `for (let pageNum = 1; pageNum <= pageCount; pageNum++)`. -/
def scanPages (documentId : String) (doc : ℕ → Option String) : List ℕ → ScanSt → ScanSt
  | [], st => st
  | pageNum :: rest, st =>
    scanPages documentId doc rest (scanOnePage documentId doc st pageNum)

/-- The whole heuristic scan phase of `generateExtractionsFromPdf` over
pages `1 .. pageCount`. -/
def mainScan (documentId : String) (doc : ℕ → Option String) (pageCount : ℕ) : ScanSt :=
  scanPages documentId doc (List.range' 1 pageCount) { extractions := [], processedPages := [] }

/-- The `do { randomPage = Math.floor(Math.random() * pageCount) + 1 }
while (usedPages.has(randomPage))` rejection loop. Returns the selected
page together with the next unconsumed random index; `none` when the loop
has not exited within `fuel` samples. -/
def pickUnusedPage (rand : ℕ → ℚ) (pageCount : ℕ) (used : List ℕ) : ℕ → ℕ → Option (ℕ × ℕ)
  | 0, _ => none
  | fuel + 1, idx =>
    let p := jsRandInt (rand idx) pageCount + 1
    if used.contains p then pickUnusedPage rand pageCount used fuel (idx + 1)
    else some (p, idx + 1)

/-- The random backfill loop
`for (let i = 0; extractions.length < extractionCount; i++)`. One unit of
`fuel` is one iteration of the loop; `none` means the loop is still running
when the fuel is exhausted. On a normal exit it returns the extraction
array and the next unconsumed random index. -/
def backfillLoop (documentId : String) (doc : ℕ → Option String) (pageCount : ℕ)
    (rand : ℕ → ℚ) (extractionCount : ℕ) :
    ℕ → ℕ → List Extraction → List ℕ → Option (List Extraction × ℕ)
  | 0, idx, exts, _ =>
    if exts.length < extractionCount then none else some (exts, idx)
  | fuel' + 1, idx, exts, used =>
    if exts.length < extractionCount then
      let step : Option (ℕ × ℕ × List ℕ) :=
        if used.length < pageCount then
          match pickUnusedPage rand pageCount used (fuel' + 1) idx with
          | none => none
          | some (p, idx') => some (p, idx', insertSet used p)
        else some (jsRandInt (rand idx) pageCount + 1, idx + 1, used)
      match step with
      | none => none
      | some (randomPage, idx', used') =>
        match doc randomPage with
        | none =>
          backfillLoop documentId doc pageCount rand extractionCount fuel' idx' exts used'
        | some pageText =>
          if pageText == "" then
            backfillLoop documentId doc pageCount rand extractionCount fuel' idx' exts used'
          else
            let words := (splitSpace [] pageText.data).map String.mk
            if 0 < words.length then
              let startIndex := jsRandInt (rand idx') (max 1 (words.length - 15))
              let len := min 15 (words.length - startIndex)
              let extractedText := joinSpace ((words.drop startIndex).take len)
              let text :=
                if extractedText == "" then "Content from page " ++ toString randomPage
                else extractedText
              backfillLoop documentId doc pageCount rand extractionCount fuel' (idx' + 1)
                (exts ++ [mkExtraction documentId exts.length text randomPage]) used'
            else
              backfillLoop documentId doc pageCount rand extractionCount fuel' idx' exts used'
    else some (exts, idx)

/-- The fixed catalog `extractionTexts` of the fallback generator. -/
def extractionTexts : List String :=
  ["Contract effective date: January 15, 2025",
   "Party A: Legal Corp International",
   "Party B: Global Enterprises Ltd.",
   "Payment terms: Net 30 days",
   "Jurisdiction: State of New York",
   "Confidentiality clause: Section 12.3",
   "Termination notice: 60 days",
   "Liability cap: $1,000,000",
   "Governing law: United States",
   "Dispute resolution: Arbitration",
   "Intellectual property rights: Section 8",
   "Force majeure clause: Section 15.2",
   "Amendment process: Written consent required",
   "Insurance requirements: $2,000,000 coverage",
   "Warranty period: 12 months"]

/-- `generateMockExtractions(documentId, pageCount)` from lib/storage.ts,
with `Math.random()` as the injected stream `rand`: between 3 and 7
extractions, each on a random page with a random catalog text. -/
def generateMockExtractions (documentId : String) (pageCount : ℕ) (rand : ℕ → ℚ) :
    List Extraction :=
  let extractionCount := jsRandInt (rand 0) 5 + 3
  (List.range extractionCount).map (fun i =>
    let randomPage := jsRandInt (rand (1 + 2 * i)) pageCount + 1
    let randomTextIndex := jsRandInt (rand (2 + 2 * i)) extractionTexts.length
    { id := "extraction-" ++ documentId ++ "-" ++ toString i
      text := extractionTexts.getD randomTextIndex ""
      pageNumber := randomPage
      documentId := documentId })

/-- Outcome of one call of `generateExtractionsFromPdf`: either the function
returned an array, or the whole-document exception was re-thrown. -/
inductive PipeResult where
  | returned : List Extraction → PipeResult
  | thrown : PipeResult
deriving DecidableEq, Repr

/-- `generateExtractionsFromPdf(documentId, file, pageCount)` from
lib/storage.ts. The file is modelled by what `PageTextSource` yields:
`none` when the PDF cannot be opened at all (the whole-document throw,
re-thrown by the outer catch), otherwise a map from page number to the
page's joined, trimmed text (`none` for a per-page parse failure, which is
caught and logged). The overall `none` result means the backfill loop has
not finished within `fuel` iterations. -/
def generateExtractionsFromPdf (documentId : String) (pdoc : Option (ℕ → Option String))
    (pageCount : ℕ) (rand : ℕ → ℚ) (fuel : ℕ) : Option PipeResult :=
  match pdoc with
  | none => some PipeResult.thrown
  | some doc =>
    let st := mainScan documentId doc pageCount
    let afterBackfill : Option (List Extraction × ℕ) :=
      if st.extractions.length < 3 then
        backfillLoop documentId doc pageCount rand (min 5 pageCount) fuel 0
          st.extractions st.processedPages
      else some (st.extractions, 0)
    match afterBackfill with
    | none => none
    | some (exts, idx) =>
      if exts.length = 0 then
        some (PipeResult.returned (generateMockExtractions documentId pageCount
          (fun n => rand (idx + n))))
      else some (PipeResult.returned exts)

/-- The fields of the document record returned by `POST /api/documents`
that `uploadDocument` reads (`documentData`). -/
structure CreatedDoc where
  id : String
  name : String
  uploadDate : String
  fileUrl : Option String
deriving DecidableEq, Repr

/-- The client-side `Document` shape of lib/types.ts. -/
structure ClientDoc where
  id : String
  name : String
  uploadDate : String
  fileUrl : Option String
  fileContent : Option String
deriving DecidableEq, Repr

/-- Outcome of `uploadDocument`: the returned final document together with
the extractions that were saved, or the exception re-thrown by its catch
block (after the error toast). -/
inductive UploadOutcome where
  | ok : ClientDoc → List Extraction → UploadOutcome
  | failed : UploadOutcome
deriving DecidableEq, Repr

/-- `uploadDocument(slotId, file, pageCount)` from hooks/use-documents.ts,
with its collaborators injected: `presignOk` is `presignedUrlResponse.ok`,
`s3PutOk` is `uploadResponse.ok`, `createResult` is the parsed body of a
successful `POST /api/documents` (or `none` when that response is not ok),
`saveOk` is `saveExtractionsResponse.ok`, and the remaining arguments feed
`generateExtractionsFromPdf`. Every `throw` lands in the catch block, which
logs, raises a toast and re-throws, so the call fails. The overall `none`
means the extraction pipeline never returned. -/
def uploadDocument (presignOk : Bool) (s3PutOk : Bool) (createResult : Option CreatedDoc)
    (saveOk : Bool) (file : Option (ℕ → Option String)) (pageCount : ℕ) (rand : ℕ → ℚ)
    (fuel : ℕ) : Option UploadOutcome :=
  if !presignOk then some UploadOutcome.failed
  else if !s3PutOk then some UploadOutcome.failed
  else
    match createResult with
    | none => some UploadOutcome.failed
    | some documentData =>
      match generateExtractionsFromPdf documentData.id file pageCount rand fuel with
      | none => none
      | some PipeResult.thrown => some UploadOutcome.failed
      | some (PipeResult.returned extractions) =>
        if !saveOk then some UploadOutcome.failed
        else
          some (UploadOutcome.ok
            { id := documentData.id
              name := documentData.name
              uploadDate := documentData.uploadDate
              fileUrl := documentData.fileUrl
              fileContent := none }
            extractions)

/-- A `Document` row of the Prisma schema, restricted to the fields the
modelled routes read. -/
structure DocRow where
  id : String
  name : String
  fileKey : String
  slotId : String
deriving DecidableEq, Repr

/-- An `Extraction` row of the Prisma schema. JSON numbers are modelled as
integers (the schema's column type is `Int`). -/
structure ExtRow where
  id : String
  text : String
  pageNumber : ℤ
  documentId : String
deriving DecidableEq, Repr

/-- The database state seen by the API routes. -/
structure DbState where
  documents : List DocRow
  extractions : List ExtRow
deriving DecidableEq, Repr

/-- HTTP outcome of `DELETE /api/documents/[id]`. -/
inductive DeleteOutcome where
  | success
  | notFound
  | validationError
  | internalError
deriving DecidableEq, Repr

/-- The `DELETE` handler of app/api/documents/[id]/route.ts. The S3
`deleteObject` call sits inside `prisma.$transaction` together with the
`extraction.deleteMany` and `document.delete` writes, so when the S3 delete
(modelled by `s3DeleteOk` on the document's `fileKey`) throws, the
transaction callback throws, every database write is rolled back and the
handler answers with an internal server error ("Failed to delete document
completely"). -/
def deleteDocumentRoute (db : DbState) (s3DeleteOk : String → Bool) (documentId : String) :
    DbState × DeleteOutcome :=
  if strTrim documentId = "" then (db, DeleteOutcome.validationError)
  else
    match db.documents.find? (fun d => d.id == documentId) with
    | none => (db, DeleteOutcome.notFound)
    | some document =>
      if s3DeleteOk document.fileKey then
        ({ documents := db.documents.filter (fun d => !(d.id == documentId))
           extractions := db.extractions.filter (fun e => !(e.documentId == documentId)) },
         DeleteOutcome.success)
      else (db, DeleteOutcome.internalError)

/-- An element of the `extractions` array posted to
`POST /api/documents/[id]/extractions`. `none` models an absent (or
non-string / non-number) field; JSON numbers are modelled as integers. -/
structure InExt where
  text : Option String
  pageNumber : Option ℤ
deriving DecidableEq, Repr

/-- `validateExtraction(extraction, index)` of the extractions route:
`!extraction.text || typeof extraction.text !== "string"` rejects a missing
or empty text, and a missing or `< 1` page number is rejected. -/
def validateExtraction (extraction : InExt) (index : ℕ) : List String :=
  (if extraction.text = none ∨ extraction.text = some "" then
     ["Extraction at index " ++ toString index ++ ": text is required and must be a string"]
   else []) ++
  (if (match extraction.pageNumber with
       | none => true
       | some n => n < 1) then
     ["Extraction at index " ++ toString index ++
       ": pageNumber is required and must be a positive number"]
   else [])

/-- HTTP outcome of `POST /api/documents/[id]/extractions`. -/
inductive PostOutcome where
  | success : ℕ → PostOutcome
  | notFound
  | validationError
deriving DecidableEq, Repr

/-- The rows built inside the route's `createMany`: one fresh id per input,
copying text and page number, all owned by `documentId`. -/
def postNewRows (uuid : ℕ → String) (documentId : String) (extractions : List InExt) :
    List ExtRow :=
  extractions.enum.map (fun p =>
    { id := uuid p.1
      text := p.2.text.getD ""
      pageNumber := p.2.pageNumber.getD 0
      documentId := documentId })

/-- The `POST` handler of app/api/documents/[id]/extractions/route.ts:
validation (non-empty id, present non-empty array, per-item
`validateExtraction`), document lookup, then a transaction that deletes all
of the document's extraction rows and inserts the new batch. `uuid` is the
stream of `uuidv4()` values; `none` for the second argument models a body
without an `extractions` field. -/
def postExtractionsRoute (uuid : ℕ → String) (db : DbState) (documentId : String)
    (body : Option (List InExt)) : DbState × PostOutcome :=
  if strTrim documentId = "" then (db, PostOutcome.validationError)
  else
    match body with
    | none => (db, PostOutcome.validationError)
    | some extractions =>
      if extractions.length = 0 then (db, PostOutcome.validationError)
      else if 0 < (extractions.enum.flatMap (fun p => validateExtraction p.2 p.1)).length then
        (db, PostOutcome.validationError)
      else
        match db.documents.find? (fun d => d.id == documentId) with
        | none => (db, PostOutcome.notFound)
        | some _ =>
          let newRows := postNewRows uuid documentId extractions
          ({ documents := db.documents
             extractions :=
               db.extractions.filter (fun e => !(e.documentId == documentId)) ++ newRows },
           PostOutcome.success newRows.length)

/-- The extraction rows persisted for a document (what
`GET /api/documents/[id]/extractions` serves, ignoring its sort). -/
def extractionsFor (db : DbState) (documentId : String) : List ExtRow :=
  db.extractions.filter (fun e => e.documentId == documentId)

/-- The client-side slot map: `documents` state of `useDocuments`, an object
keyed by slot id whose values are the slot's occupant or `null`. -/
abbrev DocumentMap := List (String × Option ClientDoc)

/-- `{ ...prev, [slot]: v }`: replace the binding when the key exists,
append it otherwise. -/
def setSlot (m : DocumentMap) (slot : String) (v : Option ClientDoc) : DocumentMap :=
  if m.any (fun e => e.1 == slot) then
    m.map (fun e => if e.1 == slot then (slot, v) else e)
  else m ++ [(slot, v)]

/-- Placing a document into a slot (the state update done on upload). -/
def putSlot (m : DocumentMap) (slot : String) (d : ClientDoc) : DocumentMap :=
  setSlot m slot (some d)

/-- Clearing a slot (`{ ...prev, [slotId]: null }`, done after a delete). -/
def removeSlot (m : DocumentMap) (slot : String) : DocumentMap :=
  setSlot m slot none

/-- `documents[slotId]` — the occupant of a slot, absent when the slot is
missing or null. -/
def lookupSlot (m : DocumentMap) (slot : String) : Option ClientDoc :=
  match m.find? (fun e => e.1 == slot) with
  | some (_, d) => d
  | none => none

/-- The `for (const [slot, doc] of Object.entries(documents))` search used
by `getDocumentFileUrl`, `getExtractions` and `deleteDocument` for
non-slot-shaped ids: the first occupied slot whose document has this id. -/
def findByDocId (m : DocumentMap) (id : String) : Option ClientDoc :=
  match m.find? (fun e =>
    match e.2 with
    | some d => d.id == id
    | none => false) with
  | some (_, d) => d
  | none => none

/-- The id reconciliation shared by the three document operations of
`useDocuments`: an id that starts with "doc-" is treated as a slot id and
resolved by slot lookup, anything else as a durable document id and
resolved by searching the slots. -/
def resolveDoc (m : DocumentMap) (id : String) : Option ClientDoc :=
  if startsWithStr id "doc-" then lookupSlot m id else findByDocId m id

/-! Concrete inputs used to instantiate the theorems below. -/

/-- A degenerate random source: every `Math.random()` call yields `0`. -/
def zeroRand : ℕ → ℚ := fun _ => 0

/-- A document every page of which parses to empty text. -/
def emptyPageDoc : ℕ → Option String := fun _ => some ""

/-- A document every page of which is one short keyword-bearing paragraph. -/
def keywordDoc : ℕ → Option String := fun _ => some "agreement agreement."

/-- A single word of 160 characters. -/
def longWord : String := String.mk (List.replicate 160 'x')

/-- A document every page of which is that single 160-character word:
no heuristic matches, so the backfill phase supplies the text. -/
def longWordDoc : ℕ → Option String := fun _ => some longWord

/-- A document row used by the route counterexamples. -/
def docRowA : DocRow :=
  { id := "a1", name := "contract.pdf", fileKey := "key1", slotId := "doc-3" }

/-- A database holding one document with one extraction row. -/
def dbOne : DbState :=
  { documents := [docRowA]
    extractions := [{ id := "e1", text := "Agreement", pageNumber := 1, documentId := "a1" }] }

/-- A database holding one document and no extraction rows. -/
def dbNoExt : DbState := { documents := [docRowA], extractions := [] }

/-- A deterministic stand-in for the `uuidv4()` stream. -/
def uuidSeq : ℕ → String := fun n => "u" ++ toString n

/-- A second, distinct stand-in for the `uuidv4()` stream. -/
def uuidSeq2 : ℕ → String := fun n => "v" ++ toString n

/-- A client document with a durable (non-slot-shaped) id. -/
def clientDocD : ClientDoc :=
  { id := "abc123", name := "contract.pdf", uploadDate := "2025-01-01", fileUrl := none
    fileContent := none }

/-- A created-document record as returned by `POST /api/documents`. -/
def createdDocA : CreatedDoc :=
  { id := "abc123", name := "contract.pdf", uploadDate := "2025-01-01", fileUrl := none }

/-! Helper lemmas. -/

theorem jsRandInt_lt (r : ℚ) (k : ℕ) (h0 : 0 ≤ r) (h1 : r < 1) (hk : 1 ≤ k) :
    jsRandInt r k < k := by
  unfold jsRandInt
  have hden : (0 : ℤ) < (r.den : ℤ) := by exact_mod_cast r.den_pos
  have hnum0 : 0 ≤ r.num := Rat.num_nonneg.mpr h0
  have hnumden : r.num < (r.den : ℤ) := Rat.lt_one_iff_num_lt_denom.mp h1
  have hkz : (0 : ℤ) < (k : ℤ) := by exact_mod_cast hk
  have hlt : r.num * (k : ℤ) < (k : ℤ) * (r.den : ℤ) := by
    calc r.num * (k : ℤ) < (r.den : ℤ) * (k : ℤ) := mul_lt_mul_of_pos_right hnumden hkz
    _ = (k : ℤ) * (r.den : ℤ) := mul_comm _ _
  have hdiv : r.num * (k : ℤ) / (r.den : ℤ) < (k : ℤ) := Int.ediv_lt_of_lt_mul hden hlt
  omega

theorem jsRandInt_zero (k : ℕ) : jsRandInt 0 k = 0 := by
  simp [jsRandInt]

theorem extractionTexts_len : extractionTexts.length = 15 := by decide

/-- C6: for every document id, every page count at least 1 and every
outcome of the random source, `generateMockExtractions` returns between 3
and 7 extractions, each with a page number in `[1, pageCount]` and a text
drawn from the fixed 15-string catalog; being a total function it cannot
throw, and its result is never empty. -/
theorem mock_generator_bounds (documentId : String) (pageCount : ℕ) (rand : ℕ → ℚ)
    (hpc : 1 ≤ pageCount) (hrand : ∀ n, 0 ≤ rand n ∧ rand n < 1) :
    3 ≤ (generateMockExtractions documentId pageCount rand).length ∧
    (generateMockExtractions documentId pageCount rand).length ≤ 7 ∧
    (generateMockExtractions documentId pageCount rand) ≠ [] ∧
    ∀ e ∈ generateMockExtractions documentId pageCount rand,
      1 ≤ e.pageNumber ∧ e.pageNumber ≤ pageCount ∧ e.text ∈ extractionTexts := by
  have hcount : jsRandInt (rand 0) 5 < 5 :=
    jsRandInt_lt _ _ (hrand 0).1 (hrand 0).2 (by norm_num)
  have hlen : (generateMockExtractions documentId pageCount rand).length =
      jsRandInt (rand 0) 5 + 3 := by
    simp [generateMockExtractions]
  refine ⟨by omega, by omega, ?_, ?_⟩
  · intro hnil
    rw [hnil] at hlen
    simp at hlen
  · intro e he
    simp only [generateMockExtractions, List.mem_map, List.mem_range] at he
    obtain ⟨i, _, rfl⟩ := he
    dsimp only
    have hpage : jsRandInt (rand (1 + 2 * i)) pageCount < pageCount :=
      jsRandInt_lt _ _ (hrand (1 + 2 * i)).1 (hrand (1 + 2 * i)).2 hpc
    have hidx : jsRandInt (rand (2 + 2 * i)) extractionTexts.length <
        extractionTexts.length :=
      jsRandInt_lt _ _ (hrand (2 + 2 * i)).1 (hrand (2 + 2 * i)).2
        (by rw [extractionTexts_len]; norm_num)
    refine ⟨by omega, by omega, ?_⟩
    have hgd : extractionTexts.getD (jsRandInt (rand (2 + 2 * i)) extractionTexts.length) ""
        ∈ extractionTexts := by
      rw [List.getD_eq_getElem?_getD, List.getElem?_eq_getElem hidx]
      exact List.getElem_mem hidx
    exact hgd

/-- Concrete instantiation of `mock_generator_bounds`. -/
theorem mock_generator_bounds_witness :
    3 ≤ (generateMockExtractions "doc" 1 zeroRand).length ∧
    (generateMockExtractions "doc" 1 zeroRand).length ≤ 7 ∧
    (generateMockExtractions "doc" 1 zeroRand) ≠ [] ∧
    ∀ e ∈ generateMockExtractions "doc" 1 zeroRand,
      1 ≤ e.pageNumber ∧ e.pageNumber ≤ 1 ∧ e.text ∈ extractionTexts :=
  mock_generator_bounds "doc" 1 zeroRand (by norm_num)
    (fun n => by constructor <;> norm_num [zeroRand])

theorem backfill_stuck_after_first (fuel idx : ℕ) :
    backfillLoop "d" emptyPageDoc 1 zeroRand 1 fuel idx [] [1] = none := by
  induction fuel generalizing idx with
  | zero => rw [backfillLoop]; simp
  | succ fuel ih =>
    rw [backfillLoop]
    simp [emptyPageDoc, zeroRand, jsRandInt_zero, ih]

theorem backfill_stuck_from_start (fuel idx : ℕ) :
    backfillLoop "d" emptyPageDoc 1 zeroRand 1 fuel idx [] [] = none := by
  cases fuel with
  | zero => rw [backfillLoop]; simp
  | succ fuel =>
    rw [backfillLoop]
    simp [pickUnusedPage, emptyPageDoc, zeroRand, jsRandInt_zero, insertSet,
      backfill_stuck_after_first]

/-- C3 (code bug): the extraction pipeline does not terminate on a one-page
document whose page parses to empty text. The backfill loop
`for (let i = 0; extractions.length < extractionCount; i++)` never pushes
anything for a page with empty text (the "Content from page N" placeholder
sits on the inner words-slice, not on the empty-page branch), so its guard
stays true forever: for every iteration bound `fuel` the modelled loop is
still running, contradicting the claimed `pageCount × small constant`
bound on the number of steps. -/
theorem extraction_pipeline_divergence (fuel : ℕ) :
    generateExtractionsFromPdf "d" (some emptyPageDoc) 1 zeroRand fuel = none := by
  have hscan : mainScan "d" emptyPageDoc 1 = { extractions := [], processedPages := [] } := by
    decide
  simp only [generateExtractionsFromPdf, hscan]
  norm_num [backfill_stuck_from_start fuel]

theorem truncChars_len_le (p : List Char) : (truncChars p).length ≤ 153 := by
  unfold truncChars
  split
  · simp
  · omega

theorem truncChars_len_ge (p : List Char) (h : 20 ≤ p.length) :
    20 ≤ (truncChars p).length := by
  unfold truncChars
  split
  · simp
    omega
  · omega

theorem countPage_append_same (l : List Extraction) (documentId : String) (k : ℕ)
    (text : String) (pageNum : ℕ) :
    countPage (l ++ [mkExtraction documentId k text pageNum]) pageNum =
      countPage l pageNum + 1 := by
  simp [countPage, mkExtraction, List.filter_append]

theorem scanParagraphs_len_of_pos (documentId : String) (pageNum : ℕ)
    (ps : List (List Char)) :
    ∀ st : ScanSt, 1 ≤ countPage st.extractions pageNum →
      (scanParagraphs documentId pageNum st ps).extractions.length ≤
        st.extractions.length + 1 := by
  induction ps with
  | nil => intro st _; rw [scanParagraphs]; omega
  | cons p rest ih =>
    intro st hcnt
    rw [scanParagraphs]
    by_cases h20 : p.length < 20
    · simp only [if_pos h20]
      exact ih st hcnt
    · simp only [if_neg h20]
      cases hImp : isImportantParagraph p with
      | false => simp only [Bool.false_eq_true, if_false]; exact ih st hcnt
      | true =>
        simp only [if_true]
        have hcnt' : 2 ≤ countPage (st.extractions ++
            [mkExtraction documentId st.extractions.length (String.mk (truncChars p))
              pageNum]) pageNum := by
          rw [countPage_append_same]
          omega
        simp only [hcnt', if_pos, List.length_append]
        simp

theorem scanParagraphs_len (documentId : String) (pageNum : ℕ) (ps : List (List Char)) :
    ∀ st : ScanSt,
      (scanParagraphs documentId pageNum st ps).extractions.length ≤
        st.extractions.length + 2 := by
  induction ps with
  | nil => intro st; rw [scanParagraphs]; omega
  | cons p rest ih =>
    intro st
    rw [scanParagraphs]
    by_cases h20 : p.length < 20
    · simp only [if_pos h20]
      exact (ih st).trans (by omega)
    · simp only [if_neg h20]
      cases hImp : isImportantParagraph p with
      | false =>
        simp only [Bool.false_eq_true, if_false]
        exact (ih st).trans (by omega)
      | true =>
        simp only [if_true]
        split
        · simp
        · refine le_trans (scanParagraphs_len_of_pos documentId pageNum rest _ ?_) ?_
          · rw [countPage_append_same]; omega
          · simp

theorem scanParagraphs_mem (documentId : String) (pageNum : ℕ) (ps : List (List Char)) :
    ∀ (st : ScanSt) (e : Extraction),
      e ∈ (scanParagraphs documentId pageNum st ps).extractions →
      e ∈ st.extractions ∨
        ∃ p : List Char, 20 ≤ p.length ∧ e.pageNumber = pageNum ∧
          e.text = String.mk (truncChars p) := by
  induction ps with
  | nil =>
    intro st e he
    rw [scanParagraphs] at he
    exact Or.inl he
  | cons p rest ih =>
    intro st e he
    rw [scanParagraphs] at he
    by_cases h20 : p.length < 20
    · simp only [if_pos h20] at he
      exact ih st e he
    · simp only [if_neg h20] at he
      cases hImp : isImportantParagraph p with
      | false =>
        simp only [hImp, Bool.false_eq_true, if_false] at he
        exact ih st e he
      | true =>
        simp only [hImp, if_true] at he
        have hmem : e ∈ st.extractions ++
              [mkExtraction documentId st.extractions.length (String.mk (truncChars p))
                pageNum] →
            e ∈ st.extractions ∨
              ∃ q : List Char, 20 ≤ q.length ∧ e.pageNumber = pageNum ∧
                e.text = String.mk (truncChars q) := by
          intro hm
          rcases List.mem_append.mp hm with h | h
          · exact Or.inl h
          · have : e = mkExtraction documentId st.extractions.length
                (String.mk (truncChars p)) pageNum := by simpa using h
            subst this
            exact Or.inr ⟨p, by omega, rfl, rfl⟩
        split at he
        · exact hmem he
        · rcases ih _ e he with h | h
          · exact hmem h
          · exact Or.inr h

theorem scanOnePage_len (documentId : String) (doc : ℕ → Option String) (st : ScanSt)
    (pageNum : ℕ) :
    (scanOnePage documentId doc st pageNum).extractions.length ≤
      st.extractions.length + 2 := by
  unfold scanOnePage
  split
  · omega
  · split
    · omega
    · exact scanParagraphs_len documentId pageNum _ st

theorem scanOnePage_mem (documentId : String) (doc : ℕ → Option String) (st : ScanSt)
    (pageNum : ℕ) (e : Extraction)
    (he : e ∈ (scanOnePage documentId doc st pageNum).extractions) :
    e ∈ st.extractions ∨
      ∃ p : List Char, 20 ≤ p.length ∧ e.pageNumber = pageNum ∧
        e.text = String.mk (truncChars p) := by
  unfold scanOnePage at he
  split at he
  · exact Or.inl he
  · split at he
    · exact Or.inl he
    · exact scanParagraphs_mem documentId pageNum _ st e he

theorem scanPages_len (documentId : String) (doc : ℕ → Option String) (pages : List ℕ) :
    ∀ st : ScanSt,
      (scanPages documentId doc pages st).extractions.length ≤
        st.extractions.length + 2 * pages.length := by
  induction pages with
  | nil => intro st; rw [scanPages]; omega
  | cons pageNum rest ih =>
    intro st
    rw [scanPages]
    refine (ih _).trans ?_
    have := scanOnePage_len documentId doc st pageNum
    simp only [List.length_cons]
    omega

theorem scanPages_mem (documentId : String) (doc : ℕ → Option String) (pages : List ℕ) :
    ∀ (st : ScanSt) (e : Extraction),
      e ∈ (scanPages documentId doc pages st).extractions →
      e ∈ st.extractions ∨
        ∃ pageNum ∈ pages, ∃ p : List Char, 20 ≤ p.length ∧ e.pageNumber = pageNum ∧
          e.text = String.mk (truncChars p) := by
  induction pages with
  | nil =>
    intro st e he
    rw [scanPages] at he
    exact Or.inl he
  | cons pageNum rest ih =>
    intro st e he
    rw [scanPages] at he
    rcases ih _ e he with h | ⟨q, hq, hrest⟩
    · rcases scanOnePage_mem documentId doc st pageNum e h with h' | h'
      · exact Or.inl h'
      · exact Or.inr ⟨pageNum, List.mem_cons_self _ _, h'⟩
    · exact Or.inr ⟨q, List.mem_cons_of_mem _ hq, hrest⟩

theorem mainScan_len (documentId : String) (doc : ℕ → Option String) (pageCount : ℕ) :
    (mainScan documentId doc pageCount).extractions.length ≤ 2 * pageCount := by
  unfold mainScan
  have := scanPages_len documentId doc (List.range' 1 pageCount)
    { extractions := [], processedPages := [] }
  simpa using this

theorem mainScan_mem (documentId : String) (doc : ℕ → Option String) (pageCount : ℕ)
    (e : Extraction) (he : e ∈ (mainScan documentId doc pageCount).extractions) :
    (1 ≤ e.pageNumber ∧ e.pageNumber ≤ pageCount) ∧
      ∃ p : List Char, 20 ≤ p.length ∧ e.text = String.mk (truncChars p) := by
  unfold mainScan at he
  rcases scanPages_mem documentId doc (List.range' 1 pageCount) _ e he with h | h
  · simp at h
  · obtain ⟨pageNum, hpn, p, hp, hpage, htext⟩ := h
    have := List.mem_range'.mp hpn
    obtain ⟨i, hi, rfl⟩ := this
    exact ⟨by omega, p, hp, htext⟩

theorem splitSpace_length_pos (l : List Char) : ∀ acc, 0 < (splitSpace acc l).length := by
  induction l with
  | nil => intro acc; rw [splitSpace]; simp
  | cons c rest ih =>
    intro acc
    rw [splitSpace]
    split
    · simp
    · exact ih _

theorem pickUnusedPage_mem (rand : ℕ → ℚ) (pageCount : ℕ) (used : List ℕ)
    (hrand : ∀ n, 0 ≤ rand n ∧ rand n < 1) (hpc : 1 ≤ pageCount) (fuel : ℕ) :
    ∀ (idx p idx' : ℕ),
      pickUnusedPage rand pageCount used fuel idx = some (p, idx') →
      1 ≤ p ∧ p ≤ pageCount := by
  induction fuel with
  | zero => intro idx p idx' h; rw [pickUnusedPage] at h; simp at h
  | succ fuel ih =>
    intro idx p idx' h
    rw [pickUnusedPage] at h
    split at h
    · exact ih _ _ _ h
    · have hlt : jsRandInt (rand idx) pageCount < pageCount :=
        jsRandInt_lt _ _ (hrand idx).1 (hrand idx).2 hpc
      simp only [Option.some.injEq, Prod.mk.injEq] at h
      omega

theorem backfill_combine (pageCount extractionCount : ℕ) (exts res : List Extraction)
    (x : Extraction) (hx : 1 ≤ x.pageNumber ∧ x.pageNumber ≤ pageCount)
    (hcond : exts.length < extractionCount)
    (hres : extractionCount ≤ res.length ∧
      res.length ≤ max (exts ++ [x]).length extractionCount ∧
      ∀ e ∈ res, e ∈ exts ++ [x] ∨ (1 ≤ e.pageNumber ∧ e.pageNumber ≤ pageCount)) :
    extractionCount ≤ res.length ∧ res.length ≤ max exts.length extractionCount ∧
      ∀ e ∈ res, e ∈ exts ∨ (1 ≤ e.pageNumber ∧ e.pageNumber ≤ pageCount) := by
  obtain ⟨h1, h2, h3⟩ := hres
  refine ⟨h1, ?_, ?_⟩
  · have hL : (exts ++ [x]).length = exts.length + 1 := by simp
    rw [hL] at h2
    have hmax : max (exts.length + 1) extractionCount = extractionCount :=
      Nat.max_eq_right (by omega)
    rw [hmax] at h2
    exact h2.trans (Nat.le_max_right _ _)
  · intro e he
    rcases h3 e he with hmem | hb
    · rcases List.mem_append.mp hmem with h' | h'
      · exact Or.inl h'
      · have hex : e = x := by simpa using h'
        subst hex
        exact Or.inr hx
    · exact Or.inr hb

theorem backfillLoop_some (documentId : String) (doc : ℕ → Option String) (pageCount : ℕ)
    (rand : ℕ → ℚ) (extractionCount : ℕ)
    (hrand : ∀ n, 0 ≤ rand n ∧ rand n < 1) (hpc : 1 ≤ pageCount) (fuel : ℕ) :
    ∀ (idx : ℕ) (exts res : List Extraction) (used : List ℕ) (idx2 : ℕ),
      backfillLoop documentId doc pageCount rand extractionCount fuel idx exts used =
        some (res, idx2) →
      extractionCount ≤ res.length ∧ res.length ≤ max exts.length extractionCount ∧
        ∀ e ∈ res, e ∈ exts ∨ (1 ≤ e.pageNumber ∧ e.pageNumber ≤ pageCount) := by
  induction fuel with
  | zero =>
    intro idx exts res used idx2 h
    rw [backfillLoop] at h
    split at h
    · simp at h
    · rename_i hcond
      simp only [Option.some.injEq, Prod.mk.injEq] at h
      obtain ⟨rfl, rfl⟩ := h
      exact ⟨by omega, Nat.le_max_left _ _, fun e he => Or.inl he⟩
  | succ fuel ih =>
    intro idx exts res used idx2 h
    rw [backfillLoop] at h
    split at h
    case isTrue hcond =>
      by_cases hused : used.length < pageCount
      · rw [if_pos hused] at h
        cases hpick : pickUnusedPage rand pageCount used (fuel + 1) idx with
        | none =>
          rw [hpick] at h
          simp at h
        | some pr =>
          obtain ⟨p, idx'⟩ := pr
          rw [hpick] at h
          simp only [] at h
          have hp : 1 ≤ p ∧ p ≤ pageCount :=
            pickUnusedPage_mem rand pageCount used hrand hpc (fuel + 1) idx p idx' hpick
          cases hdoc : doc p with
          | none =>
            rw [hdoc] at h
            exact ih _ _ _ _ _ h
          | some pageText =>
            rw [hdoc] at h
            simp only [] at h
            split at h
            · exact ih _ _ _ _ _ h
            · split at h
              · exact backfill_combine pageCount extractionCount exts res _
                  (by simpa [mkExtraction] using hp) hcond (ih _ _ _ _ _ h)
              · exact ih _ _ _ _ _ h
      · rw [if_neg hused] at h
        simp only [] at h
        have hp : 1 ≤ jsRandInt (rand idx) pageCount + 1 ∧
            jsRandInt (rand idx) pageCount + 1 ≤ pageCount := by
          have := jsRandInt_lt (rand idx) pageCount (hrand idx).1 (hrand idx).2 hpc
          omega
        cases hdoc : doc (jsRandInt (rand idx) pageCount + 1) with
        | none =>
          rw [hdoc] at h
          exact ih _ _ _ _ _ h
        | some pageText =>
          rw [hdoc] at h
          simp only [] at h
          split at h
          · exact ih _ _ _ _ _ h
          · split at h
            · exact backfill_combine pageCount extractionCount exts res _
                (by simpa [mkExtraction] using hp) hcond (ih _ _ _ _ _ h)
            · exact ih _ _ _ _ _ h
    case isFalse hcond =>
      simp only [Option.some.injEq, Prod.mk.injEq] at h
      obtain ⟨rfl, rfl⟩ := h
      exact ⟨by omega, Nat.le_max_left _ _, fun e he => Or.inl he⟩

/-- C1: whenever the extraction pipeline returns normally on a document
with `pageCount ≥ 1`, the returned list is non-empty, holds at most
`2 * pageCount` extractions, and every returned page number lies in
`[1, pageCount]`. -/
theorem extraction_selector_bounds (documentId : String)
    (pdoc : Option (ℕ → Option String)) (pageCount : ℕ) (rand : ℕ → ℚ) (fuel : ℕ)
    (result : List Extraction)
    (hpc : 1 ≤ pageCount) (hrand : ∀ n, 0 ≤ rand n ∧ rand n < 1)
    (hret : generateExtractionsFromPdf documentId pdoc pageCount rand fuel =
      some (PipeResult.returned result)) :
    0 < result.length ∧ result.length ≤ 2 * pageCount ∧
      ∀ e ∈ result, 1 ≤ e.pageNumber ∧ e.pageNumber ≤ pageCount := by
  cases pdoc with
  | none => simp [generateExtractionsFromPdf] at hret
  | some doc =>
    rw [generateExtractionsFromPdf] at hret
    by_cases hscan : (mainScan documentId doc pageCount).extractions.length < 3
    · rw [if_pos hscan] at hret
      cases hbf : backfillLoop documentId doc pageCount rand (min 5 pageCount) fuel 0
          (mainScan documentId doc pageCount).extractions
          (mainScan documentId doc pageCount).processedPages with
      | none =>
        rw [hbf] at hret
        simp at hret
      | some pr =>
        obtain ⟨exts, idx⟩ := pr
        rw [hbf] at hret
        simp only [] at hret
        obtain ⟨h1, h2, h3⟩ :=
          backfillLoop_some documentId doc pageCount rand (min 5 pageCount) hrand hpc
            fuel _ _ _ _ _ hbf
        have hec : 1 ≤ min 5 pageCount := by omega
        have hne : ¬ exts.length = 0 := by omega
        rw [if_neg hne] at hret
        simp only [Option.some.injEq, PipeResult.returned.injEq] at hret
        subst hret
        refine ⟨by omega, ?_, ?_⟩
        · have hecle : min 5 pageCount ≤ 2 * pageCount := by omega
          have : max (mainScan documentId doc pageCount).extractions.length
              (min 5 pageCount) ≤ 2 * pageCount := by omega
          omega
        · intro e he
          rcases h3 e he with hmem | hb
          · exact (mainScan_mem documentId doc pageCount e hmem).1
          · exact hb
    · rw [if_neg hscan] at hret
      simp only [] at hret
      have hne : ¬ (mainScan documentId doc pageCount).extractions.length = 0 := by omega
      rw [if_neg hne] at hret
      simp only [Option.some.injEq, PipeResult.returned.injEq] at hret
      subst hret
      refine ⟨by omega, mainScan_len documentId doc pageCount, ?_⟩
      intro e he
      exact (mainScan_mem documentId doc pageCount e he).1

set_option maxRecDepth 100000

/-- C1 witness: a one-page document whose page is a single short
keyword-bearing paragraph; the pipeline returns one extraction and the
bounds hold. -/
theorem extraction_selector_bounds_witness :
    0 < ([mkExtraction "d" 0 "agreement agreement." 1] : List Extraction).length ∧
    ([mkExtraction "d" 0 "agreement agreement." 1] : List Extraction).length ≤ 2 * 1 ∧
    ∀ e ∈ ([mkExtraction "d" 0 "agreement agreement." 1] : List Extraction),
      1 ≤ e.pageNumber ∧ e.pageNumber ≤ 1 :=
  extraction_selector_bounds "d" (some keywordDoc) 1 zeroRand 2
    [mkExtraction "d" 0 "agreement agreement." 1] (by norm_num)
    (fun n => by constructor <;> norm_num [zeroRand]) (by decide)

/-- C5 (amended): every extraction produced by the heuristic scan phase has
a text of length between 20 and 153 characters (paragraphs under 20
characters are skipped and longer ones are truncated to 150 plus the
three-character ellipsis). The backfill phase is exempt from both bounds. -/
theorem scan_text_bounds (documentId : String) (doc : ℕ → Option String) (pageCount : ℕ) :
    ∀ e ∈ (mainScan documentId doc pageCount).extractions,
      20 ≤ e.text.length ∧ e.text.length ≤ 153 := by
  intro e he
  obtain ⟨_, p, hp, htext⟩ := mainScan_mem documentId doc pageCount e he
  rw [htext]
  exact ⟨truncChars_len_ge p hp, truncChars_len_le p⟩

/-- Concrete instantiation of `scan_text_bounds`. -/
theorem scan_text_bounds_witness :
    20 ≤ (mkExtraction "d" 0 "agreement agreement." 1).text.length ∧
      (mkExtraction "d" 0 "agreement agreement." 1).text.length ≤ 153 :=
  scan_text_bounds "d" keywordDoc 1 (mkExtraction "d" 0 "agreement agreement." 1)
    (by decide)

/-- C5 counterexample: the claim that every text returned by the pipeline
has length at most 153 is false. On a one-page document whose page text is
a single 160-character word with no heuristic match, the backfill phase
returns that word verbatim as an extraction text of length 160: backfill
text is exempt from the 150-character truncation as well, not only from
the 20-character minimum. -/
theorem backfill_text_overflow_cex :
    generateExtractionsFromPdf "d" (some longWordDoc) 1 zeroRand 2 =
      some (PipeResult.returned [mkExtraction "d" 0 longWord 1]) ∧
    (mkExtraction "d" 0 longWord 1).text.length = 160 := by
  constructor
  · decide
  · decide

/-- C2 counterexample: with every collaborator healthy but the PDF failing
to open (whole-document extraction exception), `uploadDocument` fails —
the claim that the coordinator catches the exception and substitutes
`generateMockExtractions` so that the upload still succeeds is false.
The catch block of `uploadDocument` logs, raises an error toast and
re-throws; no fallback is substituted. -/
theorem upload_fails_on_extraction_throw_cex :
    uploadDocument true true (some createdDocA) true none 5 zeroRand 10 =
      some UploadOutcome.failed := by
  decide

/-- C2 (amended): a whole-document extraction exception is re-thrown by
`uploadDocument` after its catch block logs it, so the upload call fails;
the deterministic fallback is not substituted by the coordinator (inside
the pipeline, `generateMockExtractions` is invoked only on a normal return
with an empty array). -/
theorem upload_rethrows_extraction_failure (presignOk s3PutOk : Bool) (d : CreatedDoc)
    (saveOk : Bool) (file : Option (ℕ → Option String)) (pageCount : ℕ) (rand : ℕ → ℚ)
    (fuel : ℕ)
    (h : generateExtractionsFromPdf d.id file pageCount rand fuel =
      some PipeResult.thrown) :
    uploadDocument presignOk s3PutOk (some d) saveOk file pageCount rand fuel =
      some UploadOutcome.failed := by
  unfold uploadDocument
  cases presignOk <;> cases s3PutOk <;> simp [h]

/-- Concrete instantiation of `upload_rethrows_extraction_failure`. -/
theorem upload_rethrows_extraction_failure_witness :
    uploadDocument false true (some createdDocA) true none 3 zeroRand 7 =
      some UploadOutcome.failed :=
  upload_rethrows_extraction_failure false true createdDocA true none 3 zeroRand 7
    (by decide)

/-- C4 counterexample: when the S3 object deletion fails during a document
delete, the Document row and its Extraction rows are NOT gone: the
`prisma.$transaction` wrapping all three operations rolls the database
writes back, the state is unchanged, and the handler answers with an
internal server error instead of merely logging an inconsistency. -/
theorem delete_rolls_back_on_s3_failure_cex :
    deleteDocumentRoute dbOne (fun _ => false) "a1" =
      (dbOne, DeleteOutcome.internalError) ∧
    docRowA ∈ dbOne.documents ∧ dbOne.extractions.length = 1 := by
  refine ⟨by decide, by decide, by decide⟩

/-- C4 (amended): the delete path runs the extraction deletion, the
document deletion and the S3 `deleteObject` inside one transaction. If the
S3 deletion fails, the transaction rolls back — the Document row and its
Extraction rows survive and the request fails with an internal server
error; only when the S3 deletion succeeds are the rows removed and the
delete reported successful. -/
theorem delete_transactional (db : DbState) (s3 : String → Bool) (documentId : String)
    (document : DocRow)
    (htrim : ¬ strTrim documentId = "")
    (hfind : db.documents.find? (fun d => d.id == documentId) = some document) :
    (s3 document.fileKey = false →
      deleteDocumentRoute db s3 documentId = (db, DeleteOutcome.internalError)) ∧
    (s3 document.fileKey = true →
      deleteDocumentRoute db s3 documentId =
        ({ documents := db.documents.filter (fun d => !(d.id == documentId))
           extractions := db.extractions.filter (fun e => !(e.documentId == documentId)) },
         DeleteOutcome.success)) := by
  unfold deleteDocumentRoute
  rw [if_neg htrim, hfind]
  constructor <;> intro hs3 <;> simp [hs3]

/-- Concrete instantiation of `delete_transactional` (S3 delete succeeds:
both rows are removed). -/
theorem delete_transactional_witness :
    deleteDocumentRoute dbOne (fun _ => true) "a1" =
      ({ documents := [], extractions := [] }, DeleteOutcome.success) :=
  ((delete_transactional dbOne (fun _ => true) "a1" docRowA (by decide)
    (by decide)).2 rfl).trans (by decide)

theorem enumFrom_map_snd {α β : Type} (g : α → β) (l : List α) :
    ∀ n, (List.enumFrom n l).map (fun p => g p.2) = l.map g := by
  induction l with
  | nil => intro n; rfl
  | cons a rest ih =>
    intro n
    simp only [List.enumFrom, List.map_cons]
    rw [ih]

theorem postNewRows_documentId (uuid : ℕ → String) (documentId : String)
    (extractions : List InExt) :
    ∀ r ∈ postNewRows uuid documentId extractions, r.documentId = documentId := by
  intro r hr
  simp only [postNewRows, List.mem_map] at hr
  obtain ⟨p, _, rfl⟩ := hr
  rfl

theorem postNewRows_length (uuid : ℕ → String) (documentId : String)
    (extractions : List InExt) :
    (postNewRows uuid documentId extractions).length = extractions.length := by
  simp [postNewRows, List.enum]

theorem postNewRows_proj (uuid : ℕ → String) (documentId : String)
    (extractions : List InExt) :
    (postNewRows uuid documentId extractions).map (fun e => (e.text, e.pageNumber)) =
      extractions.map (fun e => (e.text.getD "", e.pageNumber.getD 0)) := by
  unfold postNewRows
  rw [List.map_map, List.enum]
  exact enumFrom_map_snd (fun e => (e.text.getD "", e.pageNumber.getD 0)) extractions 0

theorem extractionsFor_replace (exts : List ExtRow) (uuid : ℕ → String)
    (documentId : String) (extractions : List InExt) :
    (exts.filter (fun e => !(e.documentId == documentId)) ++
        postNewRows uuid documentId extractions).filter
      (fun e => e.documentId == documentId) =
      postNewRows uuid documentId extractions := by
  simp only [List.filter_append]
  have h1 : (exts.filter (fun e => !(e.documentId == documentId))).filter
      (fun e => e.documentId == documentId) = [] := by
    rw [List.filter_filter]
    apply List.filter_eq_nil_iff.mpr
    intro a _
    simp
  have h2 : (postNewRows uuid documentId extractions).filter
      (fun e => e.documentId == documentId) = postNewRows uuid documentId extractions := by
    apply List.filter_eq_self.mpr
    intro a ha
    simpa using postNewRows_documentId uuid documentId extractions a ha
  rw [h1, h2, List.nil_append]

theorem extractionsFor_after_replace (db : DbState) (uuid : ℕ → String)
    (documentId : String) (extractions : List InExt) :
    extractionsFor
      { documents := db.documents
        extractions := db.extractions.filter (fun e => !(e.documentId == documentId)) ++
          postNewRows uuid documentId extractions } documentId =
      postNewRows uuid documentId extractions := by
  unfold extractionsFor
  exact extractionsFor_replace db.extractions uuid documentId extractions

theorem validateExtraction_nil (extraction : InExt) (index : ℕ)
    (h : validateExtraction extraction index = []) :
    ∃ n, extraction.pageNumber = some n ∧ 1 ≤ n := by
  unfold validateExtraction at h
  cases hpn : extraction.pageNumber with
  | none =>
    rw [hpn] at h
    simp at h
  | some n =>
    rw [hpn] at h
    by_cases hn : n < 1
    · simp [hn] at h
    · exact ⟨n, rfl, by omega⟩

theorem postExtractionsRoute_success_eval (uuid : ℕ → String) (db : DbState)
    (documentId : String) (extractions : List InExt) (document : DocRow)
    (htrim : ¬ strTrim documentId = "") (hne : extractions ≠ [])
    (hvalid : ∀ p ∈ extractions.enum, validateExtraction p.2 p.1 = [])
    (hdoc : db.documents.find? (fun d => d.id == documentId) = some document) :
    postExtractionsRoute uuid db documentId (some extractions) =
      ({ documents := db.documents
         extractions := db.extractions.filter (fun e => !(e.documentId == documentId)) ++
           postNewRows uuid documentId extractions },
       PostOutcome.success (postNewRows uuid documentId extractions).length) := by
  unfold postExtractionsRoute
  rw [if_neg htrim]
  simp only []
  have hlen : ¬ extractions.length = 0 := fun hl => hne (List.length_eq_zero.mp hl)
  rw [if_neg hlen]
  have herr : extractions.enum.flatMap (fun p => validateExtraction p.2 p.1) = [] :=
    List.flatMap_eq_nil_iff.mpr hvalid
  rw [herr]
  simp only [List.length_nil, Nat.lt_irrefl, if_false]
  rw [hdoc]

theorem post_success_inv (uuid : ℕ → String) (db : DbState) (documentId : String)
    (extractions : List InExt) (db' : DbState) (k : ℕ)
    (h : postExtractionsRoute uuid db documentId (some extractions) =
      (db', PostOutcome.success k)) :
    extractions ≠ [] ∧
      db' = { documents := db.documents
              extractions := db.extractions.filter
                  (fun e => !(e.documentId == documentId)) ++
                postNewRows uuid documentId extractions } ∧
      k = (postNewRows uuid documentId extractions).length ∧
      ∀ p ∈ extractions.enum, validateExtraction p.2 p.1 = [] := by
  unfold postExtractionsRoute at h
  split at h
  · simp at h
  · simp only [] at h
    split at h
    · simp at h
    · rename_i hlen
      split at h
      · simp at h
      · rename_i herr
        split at h
        · simp at h
        · rename_i document hfind
          simp only [Prod.mk.injEq, PostOutcome.success.injEq] at h
          refine ⟨fun hnil => hlen (by simp [hnil]), h.1.symm, h.2.symm, ?_⟩
          apply List.flatMap_eq_nil_iff.mp
          apply List.length_eq_zero.mp
          omega

/-- C10: the replace-all-extractions endpoint rejects an empty array with a
validation error before any database change, and whenever a call succeeds
the document is left with at least one persisted extraction row. -/
theorem replace_success_leaves_nonempty (uuid : ℕ → String) (db : DbState)
    (documentId : String) (extractions : List InExt) (db' : DbState) (k : ℕ)
    (h : postExtractionsRoute uuid db documentId (some extractions) =
      (db', PostOutcome.success k)) :
    extractions ≠ [] ∧
      postExtractionsRoute uuid db documentId (some []) =
        (db, PostOutcome.validationError) ∧
      0 < (extractionsFor db' documentId).length := by
  obtain ⟨hne, rfl, rfl, _⟩ := post_success_inv uuid db documentId extractions db' k h
  refine ⟨hne, ?_, ?_⟩
  · unfold postExtractionsRoute
    split
    · rfl
    · simp
  · rw [extractionsFor_after_replace, postNewRows_length]
    have : extractions.length ≠ 0 := fun hl => hne (List.length_eq_zero.mp hl)
    omega

/-- Concrete instantiation of `replace_success_leaves_nonempty`. -/
theorem replace_success_leaves_nonempty_witness :
    ([(⟨some "Agreement", some 1⟩ : InExt)] ≠ []) ∧
      postExtractionsRoute uuidSeq dbNoExt "a1" (some []) =
        (dbNoExt, PostOutcome.validationError) ∧
      0 < (extractionsFor
        { documents := [docRowA]
          extractions := [(⟨"u0", "Agreement", 1, "a1"⟩ : ExtRow)] } "a1").length :=
  replace_success_leaves_nonempty uuidSeq dbNoExt "a1" [⟨some "Agreement", some 1⟩]
    { documents := [docRowA]
      extractions := [(⟨"u0", "Agreement", 1, "a1"⟩ : ExtRow)] } 1 (by decide)

/-- C8 counterexample: the claim that every persisted extraction has a page
number at most the owning document's page count is false — the route
validates only `pageNumber ≥ 1` (the document's page count is not even
persisted), so a page number of 999 for the one-page document behind
`docRowA` is accepted and stored. -/
theorem pageNumber_upper_bound_unchecked_cex :
    postExtractionsRoute uuidSeq dbNoExt "a1"
        (some [⟨some "Agreement clause", some 999⟩]) =
      ({ documents := [docRowA]
         extractions := [(⟨"u0", "Agreement clause", 999, "a1"⟩ : ExtRow)] },
       PostOutcome.success 1) := by
  decide

/-- C8 (amended): every extraction accepted and persisted by the
replace-all-extractions route has a page number of at least 1 —
`validateExtraction` enforces only this lower bound; no upper bound
against the owning document's page count is checked. -/
theorem post_accepted_pageNumbers_positive (uuid : ℕ → String) (db : DbState)
    (documentId : String) (extractions : List InExt) (db' : DbState) (k : ℕ)
    (h : postExtractionsRoute uuid db documentId (some extractions) =
      (db', PostOutcome.success k)) :
    ∀ e ∈ extractionsFor db' documentId, 1 ≤ e.pageNumber := by
  obtain ⟨_, rfl, _, hvalid⟩ := post_success_inv uuid db documentId extractions db' k h
  rw [extractionsFor_after_replace]
  intro e he
  simp only [postNewRows, List.mem_map] at he
  obtain ⟨p, hp, rfl⟩ := he
  obtain ⟨n, hn, hn1⟩ := validateExtraction_nil p.2 p.1 (hvalid p hp)
  simp [hn]
  omega

/-- Concrete instantiation of `post_accepted_pageNumbers_positive`. -/
theorem post_accepted_pageNumbers_positive_witness :
    1 ≤ ((⟨"u0", "Agreement", 1, "a1"⟩ : ExtRow)).pageNumber :=
  post_accepted_pageNumbers_positive uuidSeq dbNoExt "a1" [⟨some "Agreement", some 1⟩]
    { documents := [docRowA]
      extractions := [(⟨"u0", "Agreement", 1, "a1"⟩ : ExtRow)] } 1 (by decide)
    (⟨"u0", "Agreement", 1, "a1"⟩ : ExtRow) (by decide)

/-- C7: replacing all extractions of an existing document is idempotent:
running the replace-all operation twice with the same valid non-empty
input list leaves exactly that list of (text, pageNumber) rows persisted
for the document, with no duplication — the second run's transaction
deletes the rows the first run inserted before re-inserting the batch. -/
theorem replace_extractions_idempotent (uuid1 uuid2 : ℕ → String) (db : DbState)
    (documentId : String) (extractions : List InExt) (document : DocRow)
    (htrim : ¬ strTrim documentId = "") (hne : extractions ≠ [])
    (hvalid : ∀ p ∈ extractions.enum, validateExtraction p.2 p.1 = [])
    (hdoc : db.documents.find? (fun d => d.id == documentId) = some document) :
    (extractionsFor (postExtractionsRoute uuid2
        (postExtractionsRoute uuid1 db documentId (some extractions)).1 documentId
        (some extractions)).1 documentId).map (fun e => (e.text, e.pageNumber)) =
      extractions.map (fun e => (e.text.getD "", e.pageNumber.getD 0)) ∧
    (extractionsFor (postExtractionsRoute uuid2
        (postExtractionsRoute uuid1 db documentId (some extractions)).1 documentId
        (some extractions)).1 documentId).map (fun e => (e.text, e.pageNumber)) =
      (extractionsFor (postExtractionsRoute uuid1 db documentId
        (some extractions)).1 documentId).map (fun e => (e.text, e.pageNumber)) := by
  have h1 := postExtractionsRoute_success_eval uuid1 db documentId extractions document
    htrim hne hvalid hdoc
  rw [h1]
  have h2 := postExtractionsRoute_success_eval uuid2
    { documents := db.documents
      extractions := db.extractions.filter (fun e => !(e.documentId == documentId)) ++
        postNewRows uuid1 documentId extractions }
    documentId extractions document htrim hne hvalid hdoc
  rw [h2]
  simp only [extractionsFor]
  rw [extractionsFor_replace, extractionsFor_replace]
  constructor
  · exact postNewRows_proj uuid2 documentId extractions
  · rw [postNewRows_proj, postNewRows_proj]

/-- Concrete instantiation of `replace_extractions_idempotent`. -/
theorem replace_extractions_idempotent_witness :
    (extractionsFor (postExtractionsRoute uuidSeq2
        (postExtractionsRoute uuidSeq dbNoExt "a1"
          (some [(⟨some "Agreement", some 1⟩ : InExt)])).1 "a1"
        (some [(⟨some "Agreement", some 1⟩ : InExt)])).1 "a1").map
      (fun e => (e.text, e.pageNumber)) =
      ([(⟨some "Agreement", some 1⟩ : InExt)]).map
        (fun e => (e.text.getD "", e.pageNumber.getD 0)) ∧
    (extractionsFor (postExtractionsRoute uuidSeq2
        (postExtractionsRoute uuidSeq dbNoExt "a1"
          (some [(⟨some "Agreement", some 1⟩ : InExt)])).1 "a1"
        (some [(⟨some "Agreement", some 1⟩ : InExt)])).1 "a1").map
      (fun e => (e.text, e.pageNumber)) =
      (extractionsFor (postExtractionsRoute uuidSeq dbNoExt "a1"
        (some [(⟨some "Agreement", some 1⟩ : InExt)])).1 "a1").map
        (fun e => (e.text, e.pageNumber)) :=
  replace_extractions_idempotent uuidSeq uuidSeq2 dbNoExt "a1"
    [(⟨some "Agreement", some 1⟩ : InExt)] docRowA (by decide) (by decide)
    (by decide) (by decide)

theorem find_in_overwrite (slot : String) (v : Option ClientDoc) :
    ∀ m : DocumentMap, m.any (fun e => e.1 == slot) = true →
      (m.map (fun e => if e.1 == slot then (slot, v) else e)).find?
        (fun e => e.1 == slot) = some (slot, v) := by
  intro m
  induction m with
  | nil => intro h; simp at h
  | cons e rest ih =>
    intro hany
    simp only [List.map_cons]
    by_cases he : (e.1 == slot) = true
    · rw [if_pos he]
      apply List.find?_cons_of_pos
      simp
    · rw [if_neg he]
      rw [List.find?_cons_of_neg]
      · apply ih
        simp only [List.any_cons, Bool.or_eq_true] at hany
        exact hany.resolve_left he
      · simpa using he

theorem lookupSlot_setSlot (m : DocumentMap) (slot : String) (v : Option ClientDoc) :
    lookupSlot (setSlot m slot v) slot = v := by
  unfold setSlot lookupSlot
  by_cases hany : m.any (fun e => e.1 == slot) = true
  · rw [if_pos hany, find_in_overwrite slot v m hany]
  · rw [if_neg hany, List.find?_append]
    have hnone : m.find? (fun e => e.1 == slot) = none := by
      rw [List.find?_eq_none]
      intro x hx hpx
      exact hany (List.any_eq_true.mpr ⟨x, hx, hpx⟩)
    rw [hnone]
    simp

theorem mem_setSlot_self (m : DocumentMap) (slot : String) (v : Option ClientDoc) :
    (slot, v) ∈ setSlot m slot v := by
  unfold setSlot
  split
  · rename_i hany
    rw [List.any_eq_true] at hany
    obtain ⟨e, he, hkey⟩ := hany
    refine List.mem_map.mpr ⟨e, he, ?_⟩
    rw [if_pos hkey]
  · exact List.mem_append_right _ (List.mem_singleton.mpr rfl)

/-- C9: slot/document reconciliation is consistent under both addressings.
After putting a document `D` into slot "doc-3", resolving the slot id
"doc-3" and resolving `D`'s durable id both yield `D`, and after removing
slot "doc-3" the slot resolves to absent. The hypotheses record that
`D.id` really is a durable id (not slot-shaped, so the slot-prefix sniff
routes it to the by-id search) and that the map is not corrupted (no other
slot holds a document with `D`'s id — the registry invariant of the
specification). -/
theorem slot_registry_reconciliation (m : DocumentMap) (D : ClientDoc)
    (h1 : startsWithStr D.id "doc-" = false)
    (h2 : ∀ s d, (s, some d) ∈ putSlot m "doc-3" D → d.id = D.id → d = D) :
    resolveDoc (putSlot m "doc-3" D) "doc-3" = some D ∧
    resolveDoc (putSlot m "doc-3" D) D.id = some D ∧
    resolveDoc (removeSlot (putSlot m "doc-3" D) "doc-3") "doc-3" = none := by
  have hslot : startsWithStr "doc-3" "doc-" = true := by decide
  refine ⟨?_, ?_, ?_⟩
  · unfold resolveDoc
    rw [if_pos hslot]
    exact lookupSlot_setSlot m "doc-3" (some D)
  · unfold resolveDoc
    rw [if_neg (by simp [h1])]
    unfold findByDocId
    have hmem : ("doc-3", some D) ∈ putSlot m "doc-3" D := mem_setSlot_self m "doc-3" (some D)
    have hsome : ((putSlot m "doc-3" D).find? (fun e =>
        match e.2 with
        | some d => d.id == D.id
        | none => false)).isSome := by
      rw [List.find?_isSome]
      exact ⟨("doc-3", some D), hmem, by simp⟩
    obtain ⟨a, ha⟩ := Option.isSome_iff_exists.mp hsome
    rw [ha]
    have hpa := List.find?_some ha
    have hma := List.mem_of_find?_eq_some ha
    obtain ⟨s, od⟩ := a
    cases od with
    | none => simp at hpa
    | some d =>
      simp only [beq_iff_eq] at hpa
      rw [h2 s d hma hpa]
  · unfold removeSlot resolveDoc
    rw [if_pos hslot]
    exact lookupSlot_setSlot _ "doc-3" none

/-- Concrete instantiation of `slot_registry_reconciliation`. -/
theorem slot_registry_reconciliation_witness :
    resolveDoc (putSlot [("doc-1", none)] "doc-3" clientDocD) "doc-3" = some clientDocD ∧
    resolveDoc (putSlot [("doc-1", none)] "doc-3" clientDocD) clientDocD.id =
      some clientDocD ∧
    resolveDoc (removeSlot (putSlot [("doc-1", none)] "doc-3" clientDocD) "doc-3")
      "doc-3" = none :=
  slot_registry_reconciliation [("doc-1", none)] clientDocD (by decide)
    (by
      intro s d hmem hid
      have hput : putSlot [("doc-1", none)] "doc-3" clientDocD =
          [("doc-1", none), ("doc-3", some clientDocD)] := by decide
      rw [hput] at hmem
      simp only [List.mem_cons, List.mem_singleton, List.not_mem_nil, or_false,
        Prod.mk.injEq] at hmem
      rcases hmem with ⟨_, habs⟩ | ⟨_, hd⟩
      · exact Option.noConfusion habs
      · exact Option.some.inj hd)
